import Mathlib

set_option maxRecDepth 100000

/-!
Verification of the request-processing core of the `ai-python-teacher`
backend (`backend/gemini_ai.py`): prompt construction
(`build_tutor_prompt`), output sanitization (`sanitize_tutor_output`)
and the provider client with retry logic (`generate_response`).

Python strings are modelled as `List Char`; Python `None` for the
sanitizer input is modelled with `Option`.  The code-block regex
`r"```(?:[\w+-]+)?\n(.*?)```"` (DOTALL) is embedded as a deterministic
leftmost-match / shortest-body scanner, and `re.sub` as
parse-into-segments, render each segment, concatenate.
-/

/-- Python text is a sequence of code points. -/
abbrev Str := List Char

/-- Line-break characters recognized by Python `str.splitlines`. -/
def isLB (c : Char) : Bool :=
  c = '\n' || c = '\r' || c = '\x0b' || c = '\x0c' ||
  c = '\x1c' || c = '\x1d' || c = '\x1e' || c = '\x85' ||
  c = '\u2028' || c = '\u2029'

/-- Whitespace characters recognized by Python `str.strip` / `str.lstrip`. -/
def isPySpace (c : Char) : Bool :=
  c = ' ' || ( '\x09' ≤ c && c ≤ '\x0d' ) || ( '\x1c' ≤ c && c ≤ '\x1f' ) ||
  c = '\x85' || c = '\xa0' || c = '\u1680' ||
  ( '\u2000' ≤ c && c ≤ '\u200a' ) ||
  c = '\u2028' || c = '\u2029' || c = '\u202f' || c = '\u205f' || c = '\u3000'

/-- Worker for `splitlinesPy`: `acc` holds the current line reversed.
`"\r\n"` counts as a single line break; a trailing break emits no extra
empty line, mirroring Python `str.splitlines`. -/
def splitlinesGo (acc : Str) : Str → List Str
  | [] => [acc.reverse]
  | '\r' :: '\n' :: cs =>
    acc.reverse :: (if cs.isEmpty then [] else splitlinesGo [] cs)
  | c :: cs =>
    if isLB c then acc.reverse :: (if cs.isEmpty then [] else splitlinesGo [] cs)
    else splitlinesGo (c :: acc) cs

/-- Python `str.splitlines`. -/
def splitlinesPy : Str → List Str
  | [] => []
  | c :: cs => splitlinesGo [] (c :: cs)

/-- Python `str.lstrip` (no argument: strip leading whitespace). -/
def pyLstrip (s : Str) : Str := s.dropWhile isPySpace

/-- Python `str.strip` (no argument: strip both ends). -/
def pyStrip (s : Str) : Str :=
  ((s.dropWhile isPySpace).reverse.dropWhile isPySpace).reverse

/-- Python `str.lower`, ASCII fragment (the level strings compared
against are ASCII). -/
def pyLowerChar (c : Char) : Char :=
  if 'A' ≤ c && c ≤ 'Z' then Char.ofNat (c.toNat + 32) else c

/-- Python `str.lower` on a text. -/
def pyLower (s : Str) : Str := s.map pyLowerChar

/-! ## Prompt builder (`build_tutor_prompt`, gemini_ai.py lines 37-82) -/

/-- Level normalization, gemini_ai.py lines 50-52:
`level_norm = (level or "beginner").strip().lower()` followed by the
membership check against the three recognized values. -/
def levelNorm (level : Str) : Str :=
  let base := if level = [] then "beginner".data else level
  let n := pyLower (pyStrip base)
  if n = "beginner".data ∨ n = "intermediate".data ∨ n = "advanced".data then n
  else "beginner".data

/-- Template text of the tutor prompt before the topic interpolation. -/
def PROMPT_PRE : Str :=
  ( "You are an AI Python Tutor embedded in a learning app.\n\nSTRICT TUTOR MODE (must follow):\n- Do NOT provide a complete, ready-to-run corrected program.\n- Do NOT output large code blocks. If you must show code, keep it to <= 5 lines and only as illustrative snippets.\n- Prefer: hints, analogies, line-by-line explanations, and guided questions.\n- When there is an error/bug, explain the *why* (root cause) before suggesting fixes.\n- If the student asks for the answer, refuse politely and provide scaffolding instead.\n- If the student code is unsafe or irrelevant, explain what\x27s wrong and redirect.\n\nStudent context:\n- Topic: " ).data

/-- Template text between the topic and the normalized level. -/
def PROMPT_MID1 : Str := ( "\n- Level: " ).data

/-- Template text between the level and the student code. -/
def PROMPT_MID2 : Str := ( "\n\nStudent code:\n```python\n" ).data

/-- Template text between the student code and the question. -/
def PROMPT_MID3 : Str := ( "\n```\n\nStudent question:\n" ).data

/-- Template text after the question: the required response format with
its five numbered section headings. -/
def PROMPT_POST : Str :=
  ( "\n\nRequired response format (use these headings):\n1) Diagnosis (1-3 sentences)\n2) Why it happens (conceptual explanation)\n3) Hints (3-7 bullets, ordered from easiest to hardest)\n4) Check yourself (2-4 quick questions the student should answer)\n5) Next small step (one actionable step the student can do now)\n" ).data

/-- `build_tutor_prompt(topic, code, question, level)`, gemini_ai.py
lines 37-82.  `{topic or "(unspecified)"}` substitutes the placeholder
for an empty topic; `{code or ""}` is `code` itself in either case. -/
def build_tutor_prompt (topic code question level : Str) : Str :=
  PROMPT_PRE ++ (if topic = [] then ( "(unspecified)" ).data else topic) ++
  PROMPT_MID1 ++ levelNorm level ++
  PROMPT_MID2 ++ code ++
  PROMPT_MID3 ++ question ++
  PROMPT_POST

/-! ## Output sanitizer (`sanitize_tutor_output`, gemini_ai.py lines 85-118)

The pre-compiled regex is `_CODEBLOCK_RE = r"```(?:[\w+-]+)?\n(.*?)```"`
with `re.DOTALL`.  A match is: the literal fence, an optional run of
word characters (ASCII fragment of `\w`) or `+`/`-`, a newline, then the
shortest (lazy) body up to the next literal fence.  `re.sub` scans left
to right and continues after each match. -/

/-- The replacement emitted for an oversized code block
(gemini_ai.py lines 103-106). -/
def OMIT_MSG : Str :=
  ( "[Code omitted to keep this tutor-focused. Ask for a hint about a specific line or error message, and I\x27ll guide you.]" ).data

/-- Characters matched by `[\w+-]` in the block-opening language tag. -/
def isTagChar (c : Char) : Bool :=
  c.isAlphanum || c = '_' || c = '+' || c = '-'

/-- The literal triple-backtick fence. -/
def fenceStr : Str := ['`', '`', '`']

/-- Split a text into its maximal leading run of tag characters and the
remainder (the regex `[\w+-]+` is greedy, and no tag character is a
newline, so the engine always takes the maximal run). -/
def tagSplit : Str → Str × Str
  | [] => ([], [])
  | c :: cs =>
    if isTagChar c then
      let p := tagSplit cs
      (c :: p.1, p.2)
    else ([], c :: cs)

/-- Try to match the block opener `` ```(?:[\w+-]+)?\n `` at the head of
the text; on success return the matched header and the remainder. -/
def tryHeader : Str → Option (Str × Str)
  | '`' :: '`' :: '`' :: t =>
    match tagSplit t with
    | (tag, '\n' :: u) => some ('`' :: '`' :: '`' :: (tag ++ ['\n']), u)
    | _ => none
  | _ => none

/-- Find the leftmost occurrence of the closing fence: on success the
input is `body ++ fenceStr ++ rest` with `body` minimal (the lazy
`(.*?)` of the regex). -/
def splitAtFence : Str → Option (Str × Str)
  | '`' :: '`' :: '`' :: rest => some ([], rest)
  | c :: cs => (splitAtFence cs).map (fun p => (c :: p.1, p.2))
  | [] => none

/-- Try to match the whole code-block regex at the head of the text.
On success returns `(full match, body group, remainder)`. -/
def matchAt (s : Str) : Option (Str × Str × Str) :=
  match tryHeader s with
  | none => none
  | some (hdr, u) =>
    match splitAtFence u with
    | none => none
    | some (body, rest) => some (hdr ++ body ++ fenceStr, body, rest)

/-- Scan for the leftmost regex match: on success returns
`(text before the match, full match, body group, remainder)`. -/
def findMatch : Str → Option (Str × Str × Str × Str)
  | [] => none
  | c :: cs =>
    match matchAt (c :: cs) with
    | some (full, body, rest) => some ([], full, body, rest)
    | none => (findMatch cs).map (fun p => (c :: p.1, p.2))

/-- A segment of the text as seen by `re.sub`: plain text between
matches, or a matched code block with its body group. -/
inductive Seg where
  | plain (s : Str)
  | block (full body : Str)
  deriving DecidableEq

/-- The source text of a segment. -/
def segText : Seg → Str
  | .plain s => s
  | .block full _ => full

/-- Concatenation of the segment source texts. -/
def joinSegs (l : List Seg) : Str := (l.map segText).flatten

/-- Fueled segment scanner (fuel only bounds the recursion; the wrapper
`parseBlocks` always supplies enough). -/
def parseBlocksF : Nat → Str → List Seg
  | 0, s => [.plain s]
  | n + 1, s =>
    match findMatch s with
    | none => [.plain s]
    | some (pre, full, body, rest) =>
      .plain pre :: .block full body :: parseBlocksF n rest

/-- Decompose a text into the segments traversed by
`_CODEBLOCK_RE.sub`: alternating plain text and regex matches. -/
def parseBlocks (s : Str) : List Seg := parseBlocksF (s.length + 1) s

/-- `_replace_block` (gemini_ai.py lines 99-107) applied to a segment:
a block whose body has more than 8 lines becomes the fixed redirect
message, any other segment is kept unchanged. -/
def renderSeg : Seg → Str
  | .plain s => s
  | .block full body =>
    if 8 < (splitlinesPy body).length then OMIT_MSG else full

/-- `text2 = _CODEBLOCK_RE.sub(_replace_block, text)`
(gemini_ai.py line 109). -/
def redact (s : Str) : Str := ((parseBlocks s).map renderSeg).flatten

/-- The `suspicious_line_starts` tuple (gemini_ai.py line 112). -/
def SUS_STARTS : List Str :=
  [( "import " ).data, ( "from " ).data, ( "def " ).data,
   ( "class " ).data, ( "if __name__" ).data]

/-- `ln.lstrip().startswith(suspicious_line_starts)`
(gemini_ai.py line 114). -/
def isSuspicious (ln : Str) : Bool :=
  SUS_STARTS.any (fun p => p.isPrefixOf (pyLstrip ln))

/-- Number of suspicious lines of a text (gemini_ai.py line 114). -/
def suspiciousCount (t : Str) : Nat :=
  ((splitlinesPy t).filter (fun ln => isSuspicious ln)).length

/-- Python `"\n".join`. -/
def joinNL : List Str → Str
  | [] => []
  | [a] => a
  | a :: b :: l => a ++ '\n' :: joinNL (b :: l)

/-- The truncation notice appended by gemini_ai.py line 116. -/
def NOTICE : Str := ( "[Output truncated to avoid full-solution code.]" ).data

/-- The full-text clamp (gemini_ai.py lines 111-116): if at least 12
lines are suspicious, keep only the first 120 lines and append the
truncation notice. -/
def truncStep (t : Str) : Str :=
  let lines := splitlinesPy t
  if 12 ≤ (lines.filter (fun ln => isSuspicious ln)).length then
    joinNL (lines.take 120) ++ '\n' :: '\n' :: NOTICE
  else t

/-- `sanitize_tutor_output` on a non-empty text: code-block redaction
first, then the suspicious-line truncation on the redacted text. -/
def sanitizeCore (t : Str) : Str := truncStep (redact t)

/-- `sanitize_tutor_output(text)` (gemini_ai.py lines 85-118).  The
guard `if not text: return text` returns `None` and the empty string
unchanged; `Option` models the `None` sentinel. -/
def sanitize_tutor_output : Option Str → Option Str
  | none => none
  | some s => if s = [] then some s else some (sanitizeCore s)

/-! ## Provider client (`generate_response`, gemini_ai.py lines 121-217)

The HTTP world is modelled as an environment assigning to each attempt
number (1-based, as in `enumerate(..., start=1)`) the outcome of that
attempt's `session.post` call and response handling. -/

/-- Opaque provider payload data (raw JSON body). -/
abbrev RawData := Str

/-- Outcome of one HTTP attempt, as classified by the code:
a 200 response whose envelope parses to `text` (possibly empty), a 200
response whose parsing raises, a non-200 status, a timeout, or another
request exception. -/
inductive Outcome where
  | ok (text : Str) (raw : RawData)
  | parseError (exc : Str)
  | httpError (status : Nat) (body : RawData)
  | timeout
  | reqError (exc : Str)
  deriving DecidableEq

/-- The error dictionaries built by `generate_response`, one constructor
per construction site:
`missingKey` = `{"message": "Missing GEMINI_API_KEY in environment."}`,
`emptyResponse` = `{"message": "Empty response from Gemini.", "raw": data}`,
`parseFailed` = `{"message": "Failed to parse Gemini response.", "exception": e}`,
`httpErr` = `{"message": "Gemini HTTP error", "status": s, "body": b}`,
`timedOut` = `{"message": "Gemini request timed out."}`,
`requestFailed` = `{"message": "Gemini request failed.", "exception": e}`,
`unknownFailure` = `{"message": "Unknown Gemini failure."}`. -/
inductive ErrorDetail where
  | missingKey
  | emptyResponse (raw : RawData)
  | parseFailed (exc : Str)
  | httpErr (status : Nat) (body : RawData)
  | timedOut
  | requestFailed (exc : Str)
  | unknownFailure
  deriving DecidableEq

/-- The statuses retried by gemini_ai.py line 189:
`resp.status_code in (429, 500, 502, 503, 504)`. -/
def RETRY_STATUSES : List Nat := [429, 500, 502, 503, 504]

/-- The failure recorded into `last_err` for a non-returning outcome. -/
def recordErr : Outcome → ErrorDetail
  | .ok _ raw => .emptyResponse raw
  | .parseError e => .parseFailed e
  | .httpError st b => .httpErr st b
  | .timeout => .timedOut
  | .reqError e => .requestFailed e

/-- The retry loop of `generate_response` (gemini_ai.py lines 156-217):
one iteration per element of the delays list, `attempt` counting from
the given start.  Returns the `(text, error)` pair together with the
number of HTTP calls performed. -/
def genRun (env : Nat → Outcome) :
    List Nat → Nat → Option ErrorDetail →
    (Option Str × Option ErrorDetail) × Nat
  | [], _, le => ((none, some (le.getD .unknownFailure)), 0)
  | _ :: ds, attempt, le =>
    match env attempt with
    | .ok t raw =>
      if t = [] then
        let r := genRun env ds (attempt + 1) (some (.emptyResponse raw))
        (r.1, r.2 + 1)
      else ((some t, none), 1)
    | .parseError e =>
      let r := genRun env ds (attempt + 1) (some (.parseFailed e))
      (r.1, r.2 + 1)
    | .httpError st b =>
      if st ∈ RETRY_STATUSES then
        let r := genRun env ds (attempt + 1) (some (.httpErr st b))
        (r.1, r.2 + 1)
      else ((none, some (.httpErr st b)), 1)
    | .timeout =>
      let r := genRun env ds (attempt + 1) (some .timedOut)
      (r.1, r.2 + 1)
    | .reqError e =>
      let r := genRun env ds (attempt + 1) (some (.requestFailed e))
      (r.1, r.2 + 1)

/-- `RETRY_DELAYS_S` (config.py line 25). -/
def RETRY_DELAYS_S : List Nat := [1, 2, 4, 8, 16]

/-- `generate_response(prompt, request_id)` (gemini_ai.py lines
121-217), abstracted over its configuration (`GEMINI_API_KEY`, the
retry schedule) and the HTTP environment.  The loop iterates over
`[0] + RETRY_DELAYS_S`.  The second component counts HTTP calls. -/
def generate_response (apiKey : Str) (schedule : List Nat)
    (env : Nat → Outcome) : (Option Str × Option ErrorDetail) × Nat :=
  if apiKey = [] then ((none, some .missingKey), 0)
  else genRun env (0 :: schedule) 1 none

/-- An outcome the loop treats as transient (records a failure and
continues): empty 200 text, parse error, retryable HTTP status,
timeout, or request exception. -/
def isTransient : Outcome → Bool
  | .ok t _ => t.isEmpty
  | .parseError _ => true
  | .httpError st _ => decide (st ∈ RETRY_STATUSES)
  | .timeout => true
  | .reqError _ => true


/-! ## Lemmas about `splitlinesPy` and `joinNL` -/

set_option maxHeartbeats 2000000 in
theorem splitlinesGo_cons_lb (acc : Str) (c : Char) (cs : Str)
    (h : isLB c = true) (hc : c ≠ '\r') :
    splitlinesGo acc (c :: cs) =
      acc.reverse :: (if cs.isEmpty then [] else splitlinesGo [] cs) := by
  rw [splitlinesGo.eq_3 acc c cs (fun _ hcr _ => hc hcr), if_pos h]

theorem splitlinesGo_cons_nonlb (acc : Str) (c : Char) (cs : Str)
    (h : isLB c = false) :
    splitlinesGo acc (c :: cs) = splitlinesGo (c :: acc) cs := by
  have hc : c ≠ '\r' := by
    rintro rfl
    simp [isLB] at h
  rw [splitlinesGo.eq_3 acc c cs (fun _ hcr _ => hc hcr), if_neg (by simp [h])]

theorem splitlinesGo_append_nl (l : Str) (hl : ∀ c ∈ l, isLB c = false) :
    ∀ (acc r : Str),
      splitlinesGo acc (l ++ '\n' :: r) =
        (acc.reverse ++ l) :: (if r.isEmpty then [] else splitlinesGo [] r) := by
  induction l with
  | nil =>
    intro acc r
    rw [List.nil_append,
      splitlinesGo_cons_lb acc '\n' r (by simp [isLB]) (by decide)]
    simp
  | cons c l ih =>
    intro acc r
    have hc : isLB c = false := hl c (List.mem_cons_self c l)
    rw [List.cons_append, splitlinesGo_cons_nonlb acc c _ hc,
      ih (fun d hd => hl d (List.mem_cons_of_mem c hd)) (c :: acc) r]
    simp

theorem splitlinesGo_no_lb (l : Str) (hl : ∀ c ∈ l, isLB c = false) :
    ∀ acc : Str, splitlinesGo acc l = [acc.reverse ++ l] := by
  induction l with
  | nil => intro acc; simp [splitlinesGo]
  | cons c l ih =>
    intro acc
    have hc : isLB c = false := hl c (List.mem_cons_self c l)
    rw [splitlinesGo_cons_nonlb acc c _ hc,
      ih (fun d hd => hl d (List.mem_cons_of_mem c hd)) (c :: acc)]
    simp

theorem splitlinesPy_append_nl (l r : Str) (hl : ∀ c ∈ l, isLB c = false) :
    splitlinesPy (l ++ '\n' :: r) = l :: splitlinesPy r := by
  have hne : l ++ '\n' :: r ≠ [] := by simp
  obtain ⟨c, cs, hcs⟩ : ∃ c cs, l ++ '\n' :: r = c :: cs := by
    cases hl2 : l ++ '\n' :: r with
    | nil => exact absurd hl2 hne
    | cons c cs => exact ⟨c, cs, rfl⟩
  rw [show splitlinesPy (l ++ '\n' :: r) = splitlinesGo [] (l ++ '\n' :: r) by
        rw [hcs]; rfl,
    splitlinesGo_append_nl l hl [] r]
  cases r with
  | nil => simp [splitlinesPy]
  | cons d ds => simp [splitlinesPy]

theorem splitlinesPy_no_lb (l : Str) (hn : l ≠ [])
    (hl : ∀ c ∈ l, isLB c = false) : splitlinesPy l = [l] := by
  obtain ⟨c, cs, rfl⟩ : ∃ c cs, l = c :: cs := by
    cases l with
    | nil => exact absurd rfl hn
    | cons c cs => exact ⟨c, cs, rfl⟩
  rw [show splitlinesPy (c :: cs) = splitlinesGo [] (c :: cs) from rfl,
    splitlinesGo_no_lb _ hl []]
  simp

theorem joinNL_cons₂ (a b : Str) (l : List Str) :
    joinNL (a :: b :: l) = a ++ '\n' :: joinNL (b :: l) := rfl

theorem joinNL_append_nl (L : List Str) (hL : L ≠ [])
    (hfree : ∀ l ∈ L, ∀ c ∈ l, isLB c = false) (r : Str) :
    splitlinesPy (joinNL L ++ '\n' :: r) = L ++ splitlinesPy r := by
  induction L with
  | nil => exact absurd rfl hL
  | cons a L ih =>
    cases L with
    | nil =>
      rw [show joinNL [a] = a from rfl,
        splitlinesPy_append_nl a r (hfree a (List.mem_cons_self a []))]
      rfl
    | cons b L =>
      rw [joinNL_cons₂, List.append_assoc, List.cons_append]
      rw [splitlinesPy_append_nl a _ (hfree a (List.mem_cons_self a _))]
      rw [ih (by simp) (fun l hl => hfree l (List.mem_cons_of_mem a hl))]
      simp

theorem splitlinesGo_lb_free (acc s : Str) :
    (∀ c ∈ acc, isLB c = false) →
    ∀ l ∈ splitlinesGo acc s, ∀ c ∈ l, isLB c = false := by
  induction acc, s using splitlinesGo.induct with
  | case1 acc =>
    intro hacc l hl c hc
    rw [show splitlinesGo acc [] = [acc.reverse] from rfl] at hl
    simp at hl
    subst hl
    exact hacc c (List.mem_reverse.mp hc)
  | case2 acc cs ih =>
    intro hacc l hl c hc
    rw [splitlinesGo.eq_2] at hl
    rcases List.mem_cons.mp hl with rfl | hl
    · exact hacc c (List.mem_reverse.mp hc)
    · split at hl
      · simp at hl
      · exact ih (by simp) l hl c hc
  | case3 acc c0 cs hguard hlb ih =>
    intro hacc l hl c hc
    rw [splitlinesGo.eq_3 acc c0 cs hguard, if_pos hlb] at hl
    rcases List.mem_cons.mp hl with rfl | hl
    · exact hacc c (List.mem_reverse.mp hc)
    · split at hl
      · simp at hl
      · exact ih (by simp) l hl c hc
  | case4 acc c0 cs hguard hlb ih =>
    intro hacc l hl c hc
    rw [splitlinesGo.eq_3 acc c0 cs hguard,
      if_neg hlb] at hl
    refine ih ?_ l hl c hc
    intro d hd
    rcases List.mem_cons.mp hd with rfl | hd
    · exact Bool.of_not_eq_true hlb
    · exact hacc d hd

theorem splitlinesPy_lb_free (s : Str) :
    ∀ l ∈ splitlinesPy s, ∀ c ∈ l, isLB c = false := by
  cases s with
  | nil => intro l hl; simp [splitlinesPy] at hl
  | cons c cs =>
    exact splitlinesGo_lb_free [] (c :: cs) (by simp)

theorem truncStep_fires (t : Str) (h : 12 ≤ suspiciousCount t) :
    truncStep t = joinNL ((splitlinesPy t).take 120) ++ '\n' :: '\n' :: NOTICE := by
  unfold truncStep
  exact if_pos h

theorem truncStep_skips (t : Str) (h : suspiciousCount t < 12) :
    truncStep t = t := by
  unfold truncStep
  exact if_neg (by exact Nat.not_le.mpr h)

theorem splitlinesPy_truncStep (t : Str) (h : 12 ≤ suspiciousCount t) :
    splitlinesPy (truncStep t) =
      (splitlinesPy t).take 120 ++ [[], NOTICE] := by
  rw [truncStep_fires t h]
  have hlen : 12 ≤ (splitlinesPy t).length :=
    le_trans h (List.length_filter_le _ _)
  have hLne : (splitlinesPy t).take 120 ≠ [] := by
    intro hnil
    have h0 := congrArg List.length hnil
    rw [List.length_take] at h0
    simp only [List.length_nil] at h0
    omega
  have hfree : ∀ l ∈ (splitlinesPy t).take 120, ∀ c ∈ l, isLB c = false :=
    fun l hl => splitlinesPy_lb_free t l (List.mem_of_mem_take hl)
  rw [joinNL_append_nl _ hLne hfree ('\n' :: NOTICE)]
  have h2 : splitlinesPy ('\n' :: NOTICE) = [] :: splitlinesPy NOTICE := by
    have := splitlinesPy_append_nl [] NOTICE (by simp)
    simpa using this
  rw [h2, show splitlinesPy NOTICE = [NOTICE] by decide]

/-- C6: `sanitize` redacts code blocks first and then, on the
already-redacted text, counts lines whose stripped content starts with
a recognized program-structure token; when that count reaches 12 the
output is exactly the first 120 lines of the redacted text followed by
an empty line and the fixed truncation notice, so no redacted-text line
beyond the first 120 survives. -/
theorem sanitize_order_and_truncation (s : Str) :
    sanitizeCore s = truncStep (redact s) ∧
    (12 ≤ suspiciousCount (redact s) →
      splitlinesPy (sanitizeCore s) =
        (splitlinesPy (redact s)).take 120 ++ [[], NOTICE]) :=
  ⟨rfl, fun h => splitlinesPy_truncStep (redact s) h⟩

/-- Witness for C6 at a concrete input with 12 suspicious lines. -/
theorem sanitize_order_and_truncation_witness :
    12 ≤ suspiciousCount (redact (joinNL (List.replicate 12 ( "import a" ).data))) ∧
    splitlinesPy (sanitizeCore (joinNL (List.replicate 12 ( "import a" ).data))) =
      (splitlinesPy (redact (joinNL (List.replicate 12 ( "import a" ).data)))).take 120 ++
        [[], NOTICE] :=
  ⟨by decide,
   (sanitize_order_and_truncation (joinNL (List.replicate 12 ( "import a" ).data))).2
     (by decide)⟩

/-! ## Lemmas about the provider client -/

theorem genRun_transient_step (env : Nat → Outcome) (d : Nat) (ds : List Nat)
    (a : Nat) (le : Option ErrorDetail) (h : isTransient (env a) = true) :
    genRun env (d :: ds) a le =
      ((genRun env ds (a + 1) (some (recordErr (env a)))).1,
       (genRun env ds (a + 1) (some (recordErr (env a)))).2 + 1) := by
  cases henv : env a with
  | ok t raw =>
    have ht : t = [] := by
      simpa [isTransient, henv, List.isEmpty_iff] using h
    subst ht
    simp [genRun, henv, recordErr]
  | parseError e => simp [genRun, henv, recordErr]
  | httpError st b =>
    have hst : st ∈ RETRY_STATUSES := by
      simpa [isTransient, henv] using h
    simp [genRun, henv, recordErr, hst]
  | timeout => simp [genRun, henv, recordErr]
  | reqError e => simp [genRun, henv, recordErr]

theorem genRun_all_transient (env : Nat → Outcome) :
    ∀ (ds : List Nat) (a : Nat) (le : Option ErrorDetail), ds ≠ [] →
      (∀ i, a ≤ i → i < a + ds.length → isTransient (env i) = true) →
      genRun env ds a le =
        ((none, some (recordErr (env (a + ds.length - 1)))), ds.length) := by
  intro ds
  induction ds with
  | nil => intro a le hne _; exact absurd rfl hne
  | cons d ds ih =>
    intro a le _ h
    have ha : isTransient (env a) = true :=
      h a le_rfl (by simp only [List.length_cons]; omega)
    rw [genRun_transient_step env d ds a le ha]
    cases ds with
    | nil => simp [genRun]
    | cons d2 ds2 =>
      rw [ih (a + 1) (some (recordErr (env a))) (by simp)
        (fun i h1 h2 =>
          h i (by omega) (by simp only [List.length_cons] at h2 ⊢; omega))]
      simp only [List.length_cons]
      have heq : a + 1 + (ds2.length + 1) - 1 = a + (ds2.length + 1 + 1) - 1 := by
        omega
      rw [heq]

/-- C1: when the API key is present and every attempt yields a
transient outcome (the provider never succeeds), the client performs
exactly `schedule length + 1` HTTP calls and returns no text together
with the failure recorded on the last attempt. -/
theorem generate_response_exhausts_schedule (apiKey : Str)
    (schedule : List Nat) (env : Nat → Outcome) (hk : apiKey ≠ [])
    (h : ∀ i, 1 ≤ i → i ≤ schedule.length + 1 → isTransient (env i) = true) :
    generate_response apiKey schedule env =
      ((none, some (recordErr (env (schedule.length + 1)))),
       schedule.length + 1) := by
  unfold generate_response
  rw [if_neg hk]
  rw [genRun_all_transient env (0 :: schedule) 1 none (by simp)
    (fun i h1 h2 =>
      h i h1 (by simp only [List.length_cons] at h2; omega))]
  simp only [List.length_cons]
  have heq : 1 + (schedule.length + 1) - 1 = schedule.length + 1 := by omega
  rw [heq]

/-- Witness for C1: all six attempts time out with the default
five-delay schedule shape `[1, 2]` shortened to two delays. -/
theorem generate_response_exhausts_schedule_witness :
    generate_response ( "k" ).data [1, 2] (fun _ => Outcome.timeout) =
      ((none, some ErrorDetail.timedOut), 3) :=
  generate_response_exhausts_schedule ( "k" ).data [1, 2]
    (fun _ => Outcome.timeout) (by decide) (fun i _ _ => rfl)

/-- C2: per-attempt classification of a non-200 HTTP status.  A status
in {429, 500, 502, 503, 504} records the failure and the loop proceeds
to the next scheduled attempt; any other status records the failure and
stops at once, so an HTTP 401 answered on the first attempt makes the
client perform exactly one HTTP call. -/
theorem generate_response_http_classification :
    (∀ (env : Nat → Outcome) (a : Nat) (le : Option ErrorDetail)
       (st : Nat) (b : RawData) (d : Nat) (ds : List Nat),
       env a = Outcome.httpError st b → st ∈ RETRY_STATUSES →
       genRun env (d :: ds) a le =
         ((genRun env ds (a + 1) (some (ErrorDetail.httpErr st b))).1,
          (genRun env ds (a + 1) (some (ErrorDetail.httpErr st b))).2 + 1)) ∧
    (∀ (env : Nat → Outcome) (a : Nat) (le : Option ErrorDetail)
       (st : Nat) (b : RawData) (d : Nat) (ds : List Nat),
       env a = Outcome.httpError st b → st ∉ RETRY_STATUSES →
       genRun env (d :: ds) a le =
         ((none, some (ErrorDetail.httpErr st b)), 1)) ∧
    (∀ (apiKey : Str) (schedule : List Nat) (env : Nat → Outcome)
       (b : RawData), apiKey ≠ [] → env 1 = Outcome.httpError 401 b →
       generate_response apiKey schedule env =
         ((none, some (ErrorDetail.httpErr 401 b)), 1)) := by
  refine ⟨?_, ?_, ?_⟩
  · intro env a le st b d ds henv hst
    simp [genRun, henv, hst]
  · intro env a le st b d ds henv hst
    simp [genRun, henv, hst]
  · intro apiKey schedule env b hk henv
    unfold generate_response
    rw [if_neg hk]
    have h401 : (401 : Nat) ∉ RETRY_STATUSES := by decide
    simp [genRun, henv, h401]

/-- Witness for C2: a retried 429 first attempt followed by a timeout
with a one-delay schedule, and an immediate stop on a 401. -/
theorem generate_response_http_classification_witness :
    genRun (fun i => if i = 1 then Outcome.httpError 429 [] else Outcome.timeout)
        [0, 5] 1 none =
      ((genRun (fun i => if i = 1 then Outcome.httpError 429 [] else Outcome.timeout)
          [5] 2 (some (ErrorDetail.httpErr 429 []))).1,
       (genRun (fun i => if i = 1 then Outcome.httpError 429 [] else Outcome.timeout)
          [5] 2 (some (ErrorDetail.httpErr 429 []))).2 + 1) ∧
    generate_response ( "k" ).data [1]
        (fun _ => Outcome.httpError 401 ( "denied" ).data) =
      ((none, some (ErrorDetail.httpErr 401 ( "denied" ).data)), 1) :=
  ⟨generate_response_http_classification.1
      (fun i => if i = 1 then Outcome.httpError 429 [] else Outcome.timeout)
      1 none 429 [] 0 [5] (by decide) (by decide),
   generate_response_http_classification.2.2 ( "k" ).data [1]
      (fun _ => Outcome.httpError 401 ( "denied" ).data)
      ( "denied" ).data (by decide) rfl⟩

theorem genRun_shape (env : Nat → Outcome) :
    ∀ (ds : List Nat) (a : Nat) (le : Option ErrorDetail),
      (∃ t, t ≠ [] ∧ (genRun env ds a le).1 = (some t, none)) ∨
      (∃ e, (genRun env ds a le).1 = (none, some e)) := by
  intro ds
  induction ds with
  | nil =>
    intro a le
    exact Or.inr ⟨le.getD .unknownFailure, rfl⟩
  | cons d ds ih =>
    intro a le
    cases henv : env a with
    | ok t raw =>
      rcases Decidable.em (t = []) with rfl | ht
      · rcases ih (a + 1) (some (.emptyResponse raw)) with h | h
        · exact Or.inl (by simpa [genRun, henv] using h)
        · exact Or.inr (by simpa [genRun, henv] using h)
      · exact Or.inl ⟨t, ht, by simp [genRun, henv, ht]⟩
    | parseError e =>
      rcases ih (a + 1) (some (.parseFailed e)) with h | h
      · exact Or.inl (by simpa [genRun, henv] using h)
      · exact Or.inr (by simpa [genRun, henv] using h)
    | httpError st b =>
      rcases Decidable.em (st ∈ RETRY_STATUSES) with hst | hst
      · rcases ih (a + 1) (some (.httpErr st b)) with h | h
        · exact Or.inl (by simpa [genRun, henv, hst] using h)
        · exact Or.inr (by simpa [genRun, henv, hst] using h)
      · exact Or.inr ⟨.httpErr st b, by simp [genRun, henv, hst]⟩
    | timeout =>
      rcases ih (a + 1) (some .timedOut) with h | h
      · exact Or.inl (by simpa [genRun, henv] using h)
      · exact Or.inr (by simpa [genRun, henv] using h)
    | reqError e =>
      rcases ih (a + 1) (some (.requestFailed e)) with h | h
      · exact Or.inl (by simpa [genRun, henv] using h)
      · exact Or.inr (by simpa [genRun, henv] using h)

/-- C3: every call returns exactly one of success or failure: either a
non-empty text with no error, or no text with an error, never both. -/
theorem generate_response_disjoint (apiKey : Str) (schedule : List Nat)
    (env : Nat → Outcome) :
    (∃ t, t ≠ [] ∧ (generate_response apiKey schedule env).1 = (some t, none)) ∨
    (∃ e, (generate_response apiKey schedule env).1 = (none, some e)) := by
  unfold generate_response
  rcases Decidable.em (apiKey = []) with hk | hk
  · exact Or.inr ⟨.missingKey, by rw [if_pos hk]⟩
  · rw [if_neg hk]
    exact genRun_shape env (0 :: schedule) 1 none

/-- C4: with no API key configured the client immediately returns the
missing-credential failure and performs zero HTTP calls. -/
theorem generate_response_missing_key (schedule : List Nat)
    (env : Nat → Outcome) :
    generate_response [] schedule env =
      ((none, some ErrorDetail.missingKey), 0) := rfl

/-! ## Prompt-builder theorems -/

/-- C7 counterexample: the input `"Advanced"` is not one of the three
recognized values, yet it is normalized to `"advanced"`, not
`"beginner"`: the spec statement quantifies over raw inputs but the
code compares the trimmed, lowercased input. -/
theorem levelNorm_counterexample :
    ( "Advanced" ).data ≠ ( "beginner" ).data ∧
    ( "Advanced" ).data ≠ ( "intermediate" ).data ∧
    ( "Advanced" ).data ≠ ( "advanced" ).data ∧
    levelNorm ( "Advanced" ).data = ( "advanced" ).data ∧
    ( "advanced" ).data ≠ ( "beginner" ).data := by decide

/-- C7 (amended): whenever the trimmed, lowercased level (after the
empty string first defaults to `"beginner"`) is not one of the three
recognized values, the prompt embeds the level `"beginner"`. -/
theorem levelNorm_defaults_to_beginner (level : Str)
    (h : pyLower (pyStrip (if level = [] then ( "beginner" ).data else level)) ∉
      [( "beginner" ).data, ( "intermediate" ).data, ( "advanced" ).data]) :
    levelNorm level = ( "beginner" ).data ∧
    ∀ topic code question : Str,
      (PROMPT_MID1 ++ ( "beginner" ).data ++ PROMPT_MID2) <:+:
        build_tutor_prompt topic code question level := by
  have h' :
      ¬(pyLower (pyStrip (if level = [] then ( "beginner" ).data else level)) =
          ( "beginner" ).data ∨
        pyLower (pyStrip (if level = [] then ( "beginner" ).data else level)) =
          ( "intermediate" ).data ∨
        pyLower (pyStrip (if level = [] then ( "beginner" ).data else level)) =
          ( "advanced" ).data) := by
    simpa using h
  have hn : levelNorm level = ( "beginner" ).data := by
    simp only [levelNorm]
    rw [if_neg h']
  refine ⟨hn, fun topic code question => ?_⟩
  refine ⟨PROMPT_PRE ++ (if topic = [] then ( "(unspecified)" ).data else topic),
    code ++ PROMPT_MID3 ++ question ++ PROMPT_POST, ?_⟩
  simp [build_tutor_prompt, hn, List.append_assoc]

/-- Witness for the amended C7 at the garbage level `"garbage"`. -/
theorem levelNorm_defaults_to_beginner_witness :
    levelNorm ( "garbage" ).data = ( "beginner" ).data ∧
    (PROMPT_MID1 ++ ( "beginner" ).data ++ PROMPT_MID2) <:+:
      build_tutor_prompt ( "t" ).data ( "c" ).data ( "q" ).data
        ( "garbage" ).data :=
  ⟨(levelNorm_defaults_to_beginner ( "garbage" ).data (by decide)).1,
   (levelNorm_defaults_to_beginner ( "garbage" ).data (by decide)).2
     ( "t" ).data ( "c" ).data ( "q" ).data⟩

/-- C8: the prompt contains the question verbatim, the code verbatim
whenever it is non-empty, and the five literal section headings
Diagnosis, Why it happens, Hints, Check yourself, Next small step in
that fixed order. -/
theorem build_tutor_prompt_contains (topic code question level : Str) :
    question <:+: build_tutor_prompt topic code question level ∧
    (code ≠ [] → code <:+: build_tutor_prompt topic code question level) ∧
    ∃ a₁ a₂ a₃ a₄ a₅ a₆ : Str,
      build_tutor_prompt topic code question level =
        a₁ ++ ( "Diagnosis" ).data ++ a₂ ++ ( "Why it happens" ).data ++
        a₃ ++ ( "Hints" ).data ++ a₄ ++ ( "Check yourself" ).data ++
        a₅ ++ ( "Next small step" ).data ++ a₆ := by
  have hpost : PROMPT_POST =
      ( "\n\nRequired response format (use these headings):\n1) " ).data ++
      ( "Diagnosis" ).data ++ ( " (1-3 sentences)\n2) " ).data ++
      ( "Why it happens" ).data ++ ( " (conceptual explanation)\n3) " ).data ++
      ( "Hints" ).data ++
      ( " (3-7 bullets, ordered from easiest to hardest)\n4) " ).data ++
      ( "Check yourself" ).data ++
      ( " (2-4 quick questions the student should answer)\n5) " ).data ++
      ( "Next small step" ).data ++
      ( " (one actionable step the student can do now)\n" ).data := by decide
  refine ⟨?_, ?_, ?_⟩
  · refine ⟨PROMPT_PRE ++ (if topic = [] then ( "(unspecified)" ).data else topic) ++
      PROMPT_MID1 ++ levelNorm level ++ PROMPT_MID2 ++ code ++ PROMPT_MID3,
      PROMPT_POST, ?_⟩
    simp [build_tutor_prompt, List.append_assoc]
  · intro _
    refine ⟨PROMPT_PRE ++ (if topic = [] then ( "(unspecified)" ).data else topic) ++
      PROMPT_MID1 ++ levelNorm level ++ PROMPT_MID2,
      PROMPT_MID3 ++ question ++ PROMPT_POST, ?_⟩
    simp [build_tutor_prompt, List.append_assoc]
  · refine ⟨PROMPT_PRE ++ (if topic = [] then ( "(unspecified)" ).data else topic) ++
      PROMPT_MID1 ++ levelNorm level ++ PROMPT_MID2 ++ code ++ PROMPT_MID3 ++
      question ++ ( "\n\nRequired response format (use these headings):\n1) " ).data,
      ( " (1-3 sentences)\n2) " ).data,
      ( " (conceptual explanation)\n3) " ).data,
      ( " (3-7 bullets, ordered from easiest to hardest)\n4) " ).data,
      ( " (2-4 quick questions the student should answer)\n5) " ).data,
      ( " (one actionable step the student can do now)\n" ).data, ?_⟩
    simp [build_tutor_prompt, hpost, List.append_assoc]

/-- Witness for C8 at concrete inputs with a non-empty code text. -/
theorem build_tutor_prompt_contains_witness :
    ( "q" ).data <:+:
      build_tutor_prompt ( "t" ).data ( "x" ).data ( "q" ).data
        ( "beginner" ).data ∧
    ( "x" ).data <:+:
      build_tutor_prompt ( "t" ).data ( "x" ).data ( "q" ).data
        ( "beginner" ).data :=
  ⟨(build_tutor_prompt_contains ( "t" ).data ( "x" ).data ( "q" ).data
      ( "beginner" ).data).1,
   (build_tutor_prompt_contains ( "t" ).data ( "x" ).data ( "q" ).data
      ( "beginner" ).data).2.1 (by decide)⟩

/-- C9: `sanitize` maps the empty string to the empty string and the
`None` sentinel to the same sentinel, not to an empty string. -/
theorem sanitize_preserves_empty_and_none :
    sanitize_tutor_output none = none ∧
    sanitize_tutor_output (some []) = some [] := ⟨rfl, rfl⟩

/-! ## Lemmas about the code-block scanner -/

theorem splitAtFence_sound :
    ∀ (u b r : Str), splitAtFence u = some (b, r) → u = b ++ fenceStr ++ r := by
  intro u
  induction u using splitAtFence.induct with
  | case1 rest =>
    intro b r h
    rw [splitAtFence.eq_1] at h
    simp only [Option.some.injEq, Prod.mk.injEq] at h
    obtain ⟨h1, h2⟩ := h
    subst h1; subst h2
    rfl
  | case2 c cs hguard ih =>
    intro b r h
    rw [splitAtFence.eq_2 c cs hguard] at h
    cases hs : splitAtFence cs with
    | none => simp [hs] at h
    | some p =>
      simp only [hs, Option.map_some', Option.some.injEq, Prod.mk.injEq] at h
      obtain ⟨h1, h2⟩ := h
      subst h1; subst h2
      have := ih p.1 p.2 (by rw [hs])
      rw [List.cons_append, List.cons_append, ← this]
  | case3 =>
    intro b r h
    rw [splitAtFence.eq_3] at h
    exact absurd h (by simp)

theorem splitAtFence_min :
    ∀ (u b r : Str), splitAtFence u = some (b, r) →
      ∀ (x y : Str), u = x ++ fenceStr ++ y → b.length ≤ x.length := by
  intro u
  induction u using splitAtFence.induct with
  | case1 rest =>
    intro b r h x y hxy
    rw [splitAtFence.eq_1] at h
    simp only [Option.some.injEq, Prod.mk.injEq] at h
    obtain ⟨h1, _⟩ := h
    subst h1
    simp
  | case2 c cs hguard ih =>
    intro b r h x y hxy
    rw [splitAtFence.eq_2 c cs hguard] at h
    cases x with
    | nil =>
      exfalso
      simp only [List.nil_append] at hxy
      rw [show fenceStr ++ y = '`' :: '`' :: '`' :: y from rfl] at hxy
      injection hxy with hc hcs
      exact hguard y hc hcs
    | cons x0 x' =>
      cases hs : splitAtFence cs with
      | none => simp [hs] at h
      | some p =>
        simp only [hs, Option.map_some', Option.some.injEq, Prod.mk.injEq] at h
        obtain ⟨h1, _⟩ := h
        subst h1
        have hcs : cs = x' ++ fenceStr ++ y := by
          rw [List.cons_append, List.cons_append] at hxy
          injection hxy with _ h2
        have := ih p.1 p.2 (by rw [hs]) x' y hcs
        simpa using Nat.succ_le_succ this
  | case3 =>
    intro b r h x y hxy
    rw [splitAtFence.eq_3] at h
    exact absurd h (by simp)

theorem splitAtFence_isSome_of_exists :
    ∀ (u x y : Str), u = x ++ fenceStr ++ y → (splitAtFence u).isSome := by
  intro u
  induction u using splitAtFence.induct with
  | case1 rest => intro x y h; rw [splitAtFence.eq_1]; rfl
  | case2 c cs hguard ih =>
    intro x y hxy
    cases x with
    | nil =>
      exfalso
      simp only [List.nil_append] at hxy
      rw [show fenceStr ++ y = '`' :: '`' :: '`' :: y from rfl] at hxy
      injection hxy with hc hcs
      exact hguard y hc hcs
    | cons x0 x' =>
      have hcs : cs = x' ++ fenceStr ++ y := by
        rw [List.cons_append, List.cons_append] at hxy
        injection hxy with _ h2
      rw [splitAtFence.eq_2 c cs hguard]
      have := ih x' y hcs
      cases hx : splitAtFence cs with
      | none => rw [hx] at this; simp at this
      | some p => simp [hx]
  | case3 =>
    intro x y hxy
    have := congrArg List.length hxy
    simp [fenceStr] at this
    omega

/-- A body produced by the lazy `(.*?)` group: no occurrence of the
closing fence starts strictly inside `b` in `b ++ fenceStr ++ r`,
whatever follows. -/
def cleanClose (b : Str) : Prop :=
  ∀ (r x y : Str), b ++ fenceStr ++ r = x ++ fenceStr ++ y →
    b.length ≤ x.length

theorem splitAtFence_cleanClose (u b r : Str)
    (h : splitAtFence u = some (b, r)) : cleanClose b := by
  intro r0 x y hxy
  rcases le_or_lt b.length x.length with h1 | h2
  · exact h1
  · have hxb : x.length ≤ b.length := le_of_lt h2
    have hpx : (x ++ fenceStr) <+: (b ++ fenceStr ++ r0) := ⟨y, hxy.symm⟩
    have hpb : (b ++ fenceStr) <+: (b ++ fenceStr ++ r0) := ⟨r0, rfl⟩
    have hxb2 : (x ++ fenceStr) <+: (b ++ fenceStr) :=
      List.prefix_of_prefix_length_le hpx hpb (by simp [hxb])
    obtain ⟨w, hw⟩ := hxb2
    have hu : u = x ++ fenceStr ++ (w ++ r) := by
      rw [splitAtFence_sound u b r h, ← hw]
      simp [List.append_assoc]
    exact splitAtFence_min u b r h x (w ++ r) hu

theorem splitAtFence_of_cleanClose (b : Str) (hb : cleanClose b) (r : Str) :
    splitAtFence (b ++ fenceStr ++ r) = some (b, r) := by
  have hsome := splitAtFence_isSome_of_exists (b ++ fenceStr ++ r) b r rfl
  obtain ⟨⟨b', r'⟩, hbr⟩ := Option.isSome_iff_exists.mp hsome
  have hsound := splitAtFence_sound _ _ _ hbr
  have h1 : b'.length ≤ b.length := splitAtFence_min _ _ _ hbr b r rfl
  have h2 : b.length ≤ b'.length := hb r b' r' hsound
  have hlen : b.length = b'.length := le_antisymm h2 h1
  have hsound2 : b ++ (fenceStr ++ r) = b' ++ (fenceStr ++ r') := by
    simpa [List.append_assoc] using hsound
  obtain ⟨hb', hr'⟩ := List.append_inj hsound2 hlen
  have hr2 : r = r' := List.append_inj_right hr' rfl
  rw [hbr, ← hb', hr2]

theorem tagSplit_sound :
    ∀ (t a b : Str), tagSplit t = (a, b) →
      t = a ++ b ∧ (∀ c ∈ a, isTagChar c = true) ∧
      (∀ d b', b = d :: b' → isTagChar d = false) := by
  intro t
  induction t with
  | nil =>
    intro a b h
    rw [tagSplit.eq_1] at h
    simp only [Prod.mk.injEq] at h
    obtain ⟨h1, h2⟩ := h
    subst h1; subst h2
    exact ⟨rfl, by simp, by simp⟩
  | cons c cs ih =>
    intro a b h
    rw [tagSplit.eq_2] at h
    by_cases hc : isTagChar c = true
    · rw [if_pos hc] at h
      simp only [Prod.mk.injEq] at h
      obtain ⟨h1, h2⟩ := h
      subst h1; subst h2
      obtain ⟨ht, ha, hb⟩ := ih (tagSplit cs).1 (tagSplit cs).2 rfl
      refine ⟨by rw [List.cons_append, ← ht], ?_, hb⟩
      intro d hd
      rcases List.mem_cons.mp hd with rfl | hd
      · exact hc
      · exact ha d hd
    · rw [if_neg hc] at h
      simp only [Prod.mk.injEq] at h
      obtain ⟨h1, h2⟩ := h
      subst h1; subst h2
      exact ⟨rfl, by simp, fun d b' hdb => by
        injection hdb with hd _
        subst hd
        exact Bool.of_not_eq_true hc⟩

theorem tagSplit_append (t w a : Str) (d : Char) (b' : Str)
    (h : tagSplit t = (a, d :: b')) :
    tagSplit (t ++ w) = (a, d :: (b' ++ w)) := by
  induction t generalizing a with
  | nil =>
    rw [tagSplit.eq_1] at h
    simp at h
  | cons c cs ih =>
    rw [tagSplit.eq_2] at h
    by_cases hc : isTagChar c = true
    · rw [if_pos hc] at h
      simp only [Prod.mk.injEq] at h
      obtain ⟨h1, h2⟩ := h
      subst h1
      rw [List.cons_append, tagSplit.eq_2, if_pos hc,
        ih (tagSplit cs).1 (by rw [← h2])]
    · rw [if_neg hc] at h
      simp only [Prod.mk.injEq] at h
      obtain ⟨h1, h2⟩ := h
      subst h1
      injection h2 with h2a h2b
      subst h2a; subst h2b
      rw [List.cons_append, tagSplit.eq_2, if_neg hc]

theorem tagSplit_run (a : Str) (ha : ∀ c ∈ a, isTagChar c = true)
    (d : Char) (hd : isTagChar d = false) (r : Str) :
    tagSplit (a ++ d :: r) = (a, d :: r) := by
  induction a with
  | nil => simp [tagSplit.eq_2, hd]
  | cons c a ih =>
    rw [List.cons_append, tagSplit.eq_2,
      if_pos (ha c (List.mem_cons_self c a)),
      ih (fun e he => ha e (List.mem_cons_of_mem c he))]

theorem tryHeader_shape (s h u : Str) (hs : tryHeader s = some (h, u)) :
    ∃ t, s = '`' :: '`' :: '`' :: t := by
  by_contra hc
  push_neg at hc
  rw [tryHeader.eq_2 s (fun t ht => hc t ht)] at hs
  exact absurd hs (by simp)

theorem tryHeader_sound (s h u : Str) (hs : tryHeader s = some (h, u)) :
    ∃ tag, s = h ++ u ∧ h = fenceStr ++ tag ++ ['\n'] ∧
      (∀ c ∈ tag, isTagChar c = true) := by
  obtain ⟨t, rfl⟩ := tryHeader_shape s h u hs
  rw [tryHeader.eq_1] at hs
  split at hs
  · next tag u1 heq =>
    simp only [Option.some.injEq, Prod.mk.injEq] at hs
    obtain ⟨h1, h2⟩ := hs
    obtain ⟨ht, htag, _⟩ := tagSplit_sound t tag ('\n' :: u1) heq
    refine ⟨tag, ?_, by rw [← h1]; simp [fenceStr], htag⟩
    rw [← h1, ← h2, ht]
    simp [fenceStr, List.append_assoc]
  · exact absurd hs (by simp)

theorem tryHeader_append (z w h u : Str) (hz : tryHeader z = some (h, u)) :
    tryHeader (z ++ w) = some (h, u ++ w) := by
  obtain ⟨t, rfl⟩ := tryHeader_shape z h u hz
  rw [tryHeader.eq_1] at hz
  split at hz
  · next tag u1 heq =>
    simp only [Option.some.injEq, Prod.mk.injEq] at hz
    obtain ⟨h1, h2⟩ := hz
    rw [show ('`' :: '`' :: '`' :: t) ++ w = '`' :: '`' :: '`' :: (t ++ w) from rfl,
      tryHeader.eq_1, tagSplit_append t w tag '\n' u1 heq, ← h1, ← h2]
    rfl
  · exact absurd hz (by simp)

theorem tryHeader_build (tag : Str) (htag : ∀ c ∈ tag, isTagChar c = true)
    (u : Str) :
    tryHeader (fenceStr ++ tag ++ '\n' :: u) =
      some (fenceStr ++ tag ++ ['\n'], u) := by
  rw [show fenceStr ++ tag ++ '\n' :: u = '`' :: '`' :: '`' :: (tag ++ '\n' :: u) by
        simp [fenceStr],
    tryHeader.eq_1, tagSplit_run tag htag '\n' (by decide) u]
  simp [fenceStr]

theorem tryHeader_head_no_tick (c : Char) (cs : Str) (hc : ¬c = '`') :
    tryHeader (c :: cs) = none := by
  rw [tryHeader.eq_2]
  intro t ht
  injection ht with h1 _
  exact hc h1

theorem tryHeader_localized (x y h u : Str) (hnl : '\n' ∈ x)
    (hs : tryHeader (x ++ y) = some (h, u)) :
    ∃ u0, x = h ++ u0 ∧ u = u0 ++ y ∧ tryHeader x = some (h, u0) := by
  match x, hnl with
  | [c1], hnl =>
    obtain ⟨t, ht⟩ := tryHeader_shape _ h u hs
    rw [List.cons_append, List.nil_append] at ht
    injection ht with h1 _
    subst h1
    simp at hnl
  | [c1, c2], hnl =>
    obtain ⟨t, ht⟩ := tryHeader_shape _ h u hs
    rw [List.cons_append, List.cons_append, List.nil_append] at ht
    injection ht with h1 ht
    injection ht with h2 _
    subst h1; subst h2
    simp at hnl
  | c1 :: c2 :: c3 :: x3, hnl =>
    obtain ⟨t, ht⟩ := tryHeader_shape _ h u hs
    rw [List.cons_append, List.cons_append, List.cons_append] at ht
    injection ht with h1 ht
    injection ht with h2 ht
    injection ht with h3 ht
    subst h1; subst h2; subst h3
    have hnl3 : '\n' ∈ x3 := by
      simp only [List.mem_cons] at hnl
      rcases hnl with h' | h' | h' | h'
      · exact absurd h' (by decide)
      · exact absurd h' (by decide)
      · exact absurd h' (by decide)
      · exact h'
    rw [show (('`' : Char) :: '`' :: '`' :: x3) ++ y =
          '`' :: '`' :: '`' :: (x3 ++ y) from rfl, tryHeader.eq_1] at hs
    rcases hts : tagSplit x3 with ⟨a, b⟩
    obtain ⟨hx3, ha, hb⟩ := tagSplit_sound x3 a b hts
    cases b with
    | nil =>
      exfalso
      rw [hx3, List.append_nil] at hnl3
      have := ha '\n' hnl3
      simp [isTagChar] at this
    | cons d b' =>
      rw [tagSplit_append x3 y a d b' hts] at hs
      split at hs
      · next tag u1 heq =>
        simp only [Prod.mk.injEq] at heq
        obtain ⟨ha1, ha2⟩ := heq
        injection ha2 with hd hb2
        simp only [Option.some.injEq, Prod.mk.injEq] at hs
        obtain ⟨hh, hu⟩ := hs
        subst ha1
        refine ⟨b', ?_, ?_, ?_⟩
        · rw [← hh, hx3, ← hd]
          simp
        · rw [← hu, ← hb2]
        · rw [show ('`' : Char) :: '`' :: '`' :: x3 =
                fenceStr ++ a ++ '\n' :: b' by rw [hx3, ← hd]; simp [fenceStr],
            tryHeader_build a ha b', ← hh]
          simp [fenceStr]
      · exact absurd hs (by simp)

theorem tryHeader_blocked (z : Str) (m0 : Char) (m' : Str) (h u : Str)
    (htag : isTagChar m0 = false) (hnl : m0 ≠ '\n') (htk : m0 ≠ '`')
    (hs : tryHeader (z ++ m0 :: m') = some (h, u)) :
    ∃ u0, z = h ++ u0 ∧ u = u0 ++ m0 :: m' ∧ tryHeader z = some (h, u0) := by
  match z with
  | [] =>
    rw [List.nil_append] at hs
    rw [tryHeader_head_no_tick m0 m' htk] at hs
    exact absurd hs (by simp)
  | [c1] =>
    obtain ⟨t, ht⟩ := tryHeader_shape _ h u hs
    rw [List.cons_append, List.nil_append] at ht
    injection ht with h1 ht
    injection ht with h2 _
    exact absurd h2 htk
  | [c1, c2] =>
    obtain ⟨t, ht⟩ := tryHeader_shape _ h u hs
    rw [List.cons_append, List.cons_append, List.nil_append] at ht
    injection ht with h1 ht
    injection ht with h2 ht
    injection ht with h3 _
    exact absurd h3 htk
  | c1 :: c2 :: c3 :: z3 =>
    obtain ⟨t, ht⟩ := tryHeader_shape _ h u hs
    rw [List.cons_append, List.cons_append, List.cons_append] at ht
    injection ht with h1 ht
    injection ht with h2 ht
    injection ht with h3 ht
    subst h1; subst h2; subst h3
    rw [show (('`' : Char) :: '`' :: '`' :: z3) ++ m0 :: m' =
          '`' :: '`' :: '`' :: (z3 ++ m0 :: m') from rfl, tryHeader.eq_1] at hs
    rcases hts : tagSplit z3 with ⟨a, b⟩
    obtain ⟨hz3, ha, hb⟩ := tagSplit_sound z3 a b hts
    cases b with
    | nil =>
      exfalso
      rw [List.append_nil] at hz3
      rw [show z3 ++ m0 :: m' = a ++ m0 :: m' by rw [hz3],
        tagSplit_run a ha m0 htag m'] at hs
      split at hs
      · next tag u1 heq =>
        simp only [Prod.mk.injEq] at heq
        obtain ⟨_, ha2⟩ := heq
        injection ha2 with hd _
        exact hnl hd
      · exact absurd hs (by simp)
    | cons d b' =>
      rw [tagSplit_append z3 (m0 :: m') a d b' hts] at hs
      split at hs
      · next tag u1 heq =>
        simp only [Prod.mk.injEq] at heq
        obtain ⟨ha1, ha2⟩ := heq
        injection ha2 with hd hb2
        simp only [Option.some.injEq, Prod.mk.injEq] at hs
        obtain ⟨hh, hu⟩ := hs
        subst ha1
        refine ⟨b', ?_, ?_, ?_⟩
        · rw [← hh, hz3, ← hd]
          simp
        · rw [← hu, ← hb2]
        · rw [show ('`' : Char) :: '`' :: '`' :: z3 =
                fenceStr ++ a ++ '\n' :: b' by rw [hz3, ← hd]; simp [fenceStr],
            tryHeader_build a ha b', ← hh]
          simp [fenceStr]
      · exact absurd hs (by simp)

/-- The structural facts recorded by a successful regex match: the full
match is fence, tag, newline, body, fence, with a well-formed tag and a
lazily minimal body. -/
def IsBlock (full body : Str) : Prop :=
  ∃ tag, full = fenceStr ++ tag ++ '\n' :: (body ++ fenceStr) ∧
    (∀ c ∈ tag, isTagChar c = true) ∧ cleanClose body

theorem matchAt_nil : matchAt [] = none := rfl

theorem matchAt_sound (s full body rest : Str)
    (h : matchAt s = some (full, body, rest)) :
    s = full ++ rest ∧ IsBlock full body := by
  unfold matchAt at h
  split at h
  · exact absurd h (by simp)
  · next hdr u hh =>
    split at h
    · exact absurd h (by simp)
    · next b r hsf =>
      simp only [Option.some.injEq, Prod.mk.injEq] at h
      obtain ⟨h1, h2, h3⟩ := h
      obtain ⟨tag, hsu, hhdr, htag⟩ := tryHeader_sound s hdr u hh
      have hu := splitAtFence_sound u b r hsf
      have hclean := splitAtFence_cleanClose u b r hsf
      subst h2
      constructor
      · rw [hsu, hu, ← h1, ← h3]
        simp [List.append_assoc]
      · exact ⟨tag, by rw [← h1, hhdr]; simp [List.append_assoc], htag, hclean⟩

theorem matchAt_build (tag body : Str) (htag : ∀ c ∈ tag, isTagChar c = true)
    (hbody : cleanClose body) (Y : Str) :
    matchAt ((fenceStr ++ tag ++ '\n' :: (body ++ fenceStr)) ++ Y) =
      some (fenceStr ++ tag ++ '\n' :: (body ++ fenceStr), body, Y) := by
  rw [show (fenceStr ++ tag ++ '\n' :: (body ++ fenceStr)) ++ Y =
        fenceStr ++ tag ++ '\n' :: (body ++ fenceStr ++ Y) by
      simp [List.append_assoc]]
  unfold matchAt
  rw [tryHeader_build tag htag (body ++ fenceStr ++ Y)]
  have hsf : splitAtFence (body ++ (fenceStr ++ Y)) = some (body, Y) := by
    rw [← List.append_assoc]
    exact splitAtFence_of_cleanClose body hbody Y
  simp [hsf, List.append_assoc]

theorem IsBlock.nl_mem {full body : Str} (h : IsBlock full body) :
    '\n' ∈ full := by
  obtain ⟨tag, hf, _, _⟩ := h
  rw [hf]
  simp

theorem IsBlock.ne_nil {full body : Str} (h : IsBlock full body) :
    full ≠ [] := by
  obtain ⟨tag, hf, _, _⟩ := h
  rw [hf]
  simp [fenceStr]

theorem IsBlock.fence_decomp {full body : Str} (h : IsBlock full body) :
    ∃ sfx, full = fenceStr ++ sfx := by
  obtain ⟨tag, hf, _, _⟩ := h
  exact ⟨tag ++ '\n' :: (body ++ fenceStr), by rw [hf]; simp [List.append_assoc]⟩

theorem findMatch_sound (s : Str) :
    ∀ (pre full body rest : Str),
      findMatch s = some (pre, full, body, rest) →
      s = pre ++ full ++ rest ∧
      matchAt (full ++ rest) = some (full, body, rest) ∧
      ∀ p q, pre = p ++ q → q ≠ [] → matchAt (q ++ full ++ rest) = none := by
  induction s using findMatch.induct with
  | case1 =>
    intro pre full body rest h
    rw [findMatch.eq_1] at h
    exact absurd h (by simp)
  | case2 c cs full0 body0 rest0 hm =>
    intro pre full body rest h
    rw [findMatch.eq_2, hm] at h
    simp only [Option.some.injEq, Prod.mk.injEq] at h
    obtain ⟨h1, h2, h3, h4⟩ := h
    subst h1; subst h2; subst h3; subst h4
    obtain ⟨hs, _⟩ := matchAt_sound _ _ _ _ hm
    refine ⟨by simpa using hs, by rw [← hs]; exact hm, ?_⟩
    intro p q hpq hq
    exact absurd (List.append_eq_nil.mp hpq.symm).2 hq
  | case3 c cs hm ih =>
    intro pre full body rest h
    rw [findMatch.eq_2, hm] at h
    cases hf : findMatch cs with
    | none => rw [hf] at h; exact absurd h (by simp)
    | some p4 =>
      obtain ⟨pre', full', body', rest'⟩ := p4
      rw [hf] at h
      simp only [Option.map_some', Option.some.injEq, Prod.mk.injEq] at h
      obtain ⟨h1, h2, h3, h4⟩ := h
      subst h1; subst h2; subst h3; subst h4
      obtain ⟨hcs, hmm2, hpre⟩ := ih pre' full' body' rest' hf
      refine ⟨by rw [hcs]; simp, hmm2, ?_⟩
      intro p q hpq hq
      cases p with
      | nil =>
        simp only [List.nil_append] at hpq
        rw [← hpq]
        rw [show (c :: pre') ++ full' ++ rest' =
              c :: (pre' ++ full' ++ rest') by simp, ← hcs]
        exact hm
      | cons p0 p' =>
        rw [List.cons_append] at hpq
        injection hpq with _ hpq2
        exact hpre p' q hpq2 hq

theorem findMatch_none_sound (s : Str) (h : findMatch s = none) :
    ∀ p q, s = p ++ q → matchAt q = none := by
  induction s using findMatch.induct with
  | case1 =>
    intro p q hpq
    have : q = [] := (List.append_eq_nil.mp hpq.symm).2
    rw [this]
    exact matchAt_nil
  | case2 c cs full body rest hm =>
    rw [findMatch.eq_2, hm] at h
    exact absurd h (by simp)
  | case3 c cs hm ih =>
    rw [findMatch.eq_2, hm] at h
    have hf : findMatch cs = none := by
      cases hf : findMatch cs with
      | none => rfl
      | some p4 => rw [hf] at h; simp at h
    intro p q hpq
    cases p with
    | nil =>
      simp only [List.nil_append] at hpq
      rw [← hpq]
      exact hm
    | cons p0 p' =>
      rw [List.cons_append] at hpq
      injection hpq with _ hpq2
      exact ih hf p' q hpq2

theorem findMatch_none_build (s : Str)
    (h : ∀ p q, s = p ++ q → matchAt q = none) : findMatch s = none := by
  induction s with
  | nil => exact findMatch.eq_1
  | cons c cs ih =>
    rw [findMatch.eq_2, h [] (c :: cs) rfl,
      ih (fun p q hpq => h (c :: p) q (by rw [hpq, List.cons_append]))]
    rfl

theorem findMatch_prefix_some (A W : Str)
    (hA : ∀ p q, A = p ++ q → q ≠ [] → matchAt (q ++ W) = none)
    (pw f b r : Str) (hW : findMatch W = some (pw, f, b, r)) :
    findMatch (A ++ W) = some (A ++ pw, f, b, r) := by
  induction A with
  | nil => simpa using hW
  | cons c A' ih =>
    rw [List.cons_append, findMatch.eq_2]
    have hm : matchAt (c :: (A' ++ W)) = none := by
      have := hA [] (c :: A') rfl (by simp)
      simpa using this
    rw [hm, ih (fun p q hpq hq => hA (c :: p) q (by rw [hpq, List.cons_append]) hq)]
    rfl

theorem findMatch_prefix_none (A W : Str)
    (hA : ∀ p q, A = p ++ q → q ≠ [] → matchAt (q ++ W) = none)
    (hW : findMatch W = none) : findMatch (A ++ W) = none := by
  apply findMatch_none_build
  intro p q hpq
  rcases List.append_eq_append_iff.mp hpq.symm with ⟨a', ha1, ha2⟩ | ⟨c', hc1, hc2⟩
  · cases a' with
    | nil =>
      have hq : q = W := by simpa using ha2
      rw [hq]
      exact findMatch_none_sound W hW [] W rfl
    | cons a0 a'' =>
      rw [ha2]
      exact hA p (a0 :: a'') ha1 (by simp)
  · exact findMatch_none_sound W hW c' q hc2

theorem findMatch_rest_lt (s pre full body rest : Str)
    (h : findMatch s = some (pre, full, body, rest)) :
    rest.length < s.length := by
  obtain ⟨hs, hmm, _⟩ := findMatch_sound s pre full body rest h
  obtain ⟨_, hblk⟩ := matchAt_sound _ _ _ _ hmm
  have hne := hblk.ne_nil
  have : 1 ≤ full.length := by
    cases full with
    | nil => exact absurd rfl hne
    | cons a l => simp
  rw [hs]
  simp only [List.length_append]
  omega

theorem parseBlocksF_congr : ∀ (n m : Nat) (s : Str),
    s.length < n → s.length < m → parseBlocksF n s = parseBlocksF m s := by
  intro n
  induction n with
  | zero => intro m s hn; omega
  | succ n ih =>
    intro m s hn hm
    cases m with
    | zero => omega
    | succ m =>
      rw [parseBlocksF.eq_2, parseBlocksF.eq_2]
      cases hf : findMatch s with
      | none => rfl
      | some p4 =>
        obtain ⟨pre, full, body, rest⟩ := p4
        have hr := findMatch_rest_lt s pre full body rest hf
        show Seg.plain pre :: Seg.block full body :: parseBlocksF n rest =
          Seg.plain pre :: Seg.block full body :: parseBlocksF m rest
        rw [ih m rest (by omega) (by omega)]

theorem parseBlocks_none (s : Str) (h : findMatch s = none) :
    parseBlocks s = [.plain s] := by
  unfold parseBlocks
  rw [parseBlocksF.eq_2, h]

theorem parseBlocks_some (s pre full body rest : Str)
    (h : findMatch s = some (pre, full, body, rest)) :
    parseBlocks s = .plain pre :: .block full body :: parseBlocks rest := by
  unfold parseBlocks
  rw [parseBlocksF.eq_2, h]
  have hr := findMatch_rest_lt s pre full body rest h
  show Seg.plain pre :: Seg.block full body :: parseBlocksF s.length rest =
    Seg.plain pre :: Seg.block full body :: parseBlocksF (rest.length + 1) rest
  rw [parseBlocksF_congr s.length (rest.length + 1) rest (by omega) (by omega)]

theorem redact_none (s : Str) (h : findMatch s = none) : redact s = s := by
  unfold redact
  rw [parseBlocks_none s h]
  simp [renderSeg]

theorem redact_some (s pre full body rest : Str)
    (h : findMatch s = some (pre, full, body, rest)) :
    redact s = pre ++ renderSeg (.block full body) ++ redact rest := by
  unfold redact
  rw [parseBlocks_some s pre full body rest h]
  simp [renderSeg, List.append_assoc]

theorem joinSegs_parseBlocks_aux :
    ∀ (n : Nat) (s : Str), s.length ≤ n → joinSegs (parseBlocks s) = s := by
  intro n
  induction n with
  | zero =>
    intro s hs
    have : s = [] := List.length_eq_zero.mp (Nat.le_zero.mp hs)
    subst this
    rw [parseBlocks_none [] findMatch.eq_1]
    simp [joinSegs, segText]
  | succ n ih =>
    intro s hs
    cases hf : findMatch s with
    | none =>
      rw [parseBlocks_none s hf]
      simp [joinSegs, segText]
    | some p4 =>
      obtain ⟨pre, full, body, rest⟩ := p4
      rw [parseBlocks_some s pre full body rest hf]
      obtain ⟨hseq, hmm2, _⟩ := findMatch_sound s pre full body rest hf
      have hr := findMatch_rest_lt s pre full body rest hf
      have hrest := ih rest (by omega)
      simp only [joinSegs, List.map_cons, List.flatten_cons, segText]
      rw [show (List.map segText (parseBlocks rest)).flatten =
            joinSegs (parseBlocks rest) from rfl, hrest, hseq]
      simp [List.append_assoc]

theorem joinSegs_parseBlocks (s : Str) : joinSegs (parseBlocks s) = s :=
  joinSegs_parseBlocks_aux s.length s le_rfl

theorem infix_flatten_of_mem {α : Type} (f : α → Str) :
    ∀ (l : List α) (x : α), x ∈ l → f x <:+: (l.map f).flatten := by
  intro l
  induction l with
  | nil => intro x hx; simp at hx
  | cons a l ih =>
    intro x hx
    rcases List.mem_cons.mp hx with rfl | hx
    · exact ⟨[], (l.map f).flatten, by simp⟩
    · obtain ⟨s, t, hst⟩ := ih x hx
      refine ⟨f a ++ s, t, ?_⟩
      rw [List.map_cons, List.flatten_cons, ← hst]
      simp [List.append_assoc]

/-- C5 (amended): the code-block redaction step decomposes the text
into segments whose concatenation is exactly the text; a fenced block
whose body has at most 8 lines is kept byte-identical (it reappears
verbatim in the redacted text), while a block whose body has more than
8 lines is rendered as the fixed redirect message, which appears in the
redacted text in place of the block.  (Body lines of an oversized block
can still appear in the output when they also occur outside the block,
and the later truncation step can drop retained blocks; see the
counterexample.) -/
theorem redact_block_replacement (s : Str) :
    joinSegs (parseBlocks s) = s ∧
    ∀ full body, Seg.block full body ∈ parseBlocks s →
      ((splitlinesPy body).length ≤ 8 → full <:+: redact s) ∧
      (8 < (splitlinesPy body).length →
        renderSeg (Seg.block full body) = OMIT_MSG ∧
        OMIT_MSG <:+: redact s) := by
  refine ⟨joinSegs_parseBlocks s, ?_⟩
  intro full body hmem
  constructor
  · intro hle
    have hrender : renderSeg (Seg.block full body) = full := by
      simp only [renderSeg]
      rw [if_neg (by omega)]
    have := infix_flatten_of_mem renderSeg (parseBlocks s)
      (Seg.block full body) hmem
    rw [hrender] at this
    exact this
  · intro hgt
    have hrender : renderSeg (Seg.block full body) = OMIT_MSG := by
      simp only [renderSeg]
      rw [if_pos hgt]
    refine ⟨hrender, ?_⟩
    have := infix_flatten_of_mem renderSeg (parseBlocks s)
      (Seg.block full body) hmem
    rw [hrender] at this
    exact this

/-- C5 counterexample: (a) an oversized block whose body line
`"import os"` also occurs before the block still has that line in the
sanitized output, so not every body line disappears; (b) a text with
twelve suspicious lines followed, beyond line 120, by a small (one-line
body) block: sanitize truncates the block away, so the ≤8-line block is
not byte-identically preserved by `sanitize` as a whole. -/
theorem sanitize_block_claim_counterexample :
    (Seg.block
        (( "```\na1\na2\na3\na4\na5\na6\na7\na8\nimport os\n```" ).data)
        (( "a1\na2\na3\na4\na5\na6\na7\na8\nimport os\n" ).data) ∈
      parseBlocks
        (( "import os\n```\na1\na2\na3\na4\na5\na6\na7\na8\nimport os\n```" ).data) ∧
     8 < (splitlinesPy (( "a1\na2\na3\na4\na5\na6\na7\na8\nimport os\n" ).data)).length ∧
     ( "import os" ).data ∈
       splitlinesPy (( "a1\na2\na3\na4\na5\na6\na7\na8\nimport os\n" ).data) ∧
     ( "import os" ).data ∈
       splitlinesPy (sanitizeCore
         (( "import os\n```\na1\na2\na3\na4\na5\na6\na7\na8\nimport os\n```" ).data))) ∧
    (Seg.block (( "```\nx\n```" ).data) (( "x\n" ).data) ∈
      parseBlocks (joinNL (List.replicate 12 (( "def a" ).data)) ++
        List.replicate 110 '\n' ++ ( "```\nx\n```" ).data) ∧
     (splitlinesPy (( "x\n" ).data)).length ≤ 8 ∧
     ¬ (( "```\nx\n```" ).data <:+:
        sanitizeCore (joinNL (List.replicate 12 (( "def a" ).data)) ++
          List.replicate 110 '\n' ++ ( "```\nx\n```" ).data))) := by
  decide

/-- Witness for the amended C5 at the oversized-block input. -/
theorem redact_block_replacement_witness :
    joinSegs (parseBlocks
      (( "import os\n```\na1\na2\na3\na4\na5\na6\na7\na8\nimport os\n```" ).data)) =
      ( "import os\n```\na1\na2\na3\na4\na5\na6\na7\na8\nimport os\n```" ).data ∧
    OMIT_MSG <:+: redact
      (( "import os\n```\na1\na2\na3\na4\na5\na6\na7\na8\nimport os\n```" ).data) :=
  ⟨(redact_block_replacement _).1,
   (((redact_block_replacement
        (( "import os\n```\na1\na2\na3\na4\na5\na6\na7\na8\nimport os\n```" ).data)).2
      (( "```\na1\na2\na3\na4\na5\na6\na7\na8\nimport os\n```" ).data)
      (( "a1\na2\na3\na4\na5\na6\na7\na8\nimport os\n" ).data)
      (by decide)).2 (by decide)).2⟩

/-! ## Stability of the scanner under redaction (towards C10) -/

theorem matchAt_some_header (s f b r : Str)
    (h : matchAt s = some (f, b, r)) :
    ∃ hh uu, tryHeader s = some (hh, uu) := by
  unfold matchAt at h
  split at h
  · exact absurd h (by simp)
  · next hdr u hh => exact ⟨hdr, u, hh⟩

theorem matchAt_ne_none_of_fence (s h u x y : Str)
    (hh : tryHeader s = some (h, u)) (hu : u = x ++ fenceStr ++ y) :
    matchAt s ≠ none := by
  unfold matchAt
  rw [hh]
  show (match splitAtFence u with
    | none => none
    | some (body, rest) => some (h ++ body ++ fenceStr, body, rest)) ≠ none
  have hsome := splitAtFence_isSome_of_exists u x y hu
  cases hsf : splitAtFence u with
  | none => rw [hsf] at hsome; simp at hsome
  | some p =>
    obtain ⟨b, r⟩ := p
    simp

theorem matchAt_header_none (s : Str) (hh : tryHeader s = none) :
    matchAt s = none := by
  unfold matchAt
  rw [hh]

theorem fence_chars (c : Char) (hc : c ∈ fenceStr) : c = '`' := by
  simp [fenceStr] at hc
  rcases hc with rfl | rfl | rfl <;> rfl

theorem full_as_concat (full body : Str) (hblk : IsBlock full body) :
    ∃ tag, full = (fenceStr ++ tag ++ '\n' :: body) ++ fenceStr ∧
      (∀ c ∈ tag, isTagChar c = true) := by
  obtain ⟨tag, hf, htag, _⟩ := hblk
  exact ⟨tag, by rw [hf]; simp [List.append_assoc], htag⟩

theorem fence_in_u0 (q full u0 h body : Str) (hblk : IsBlock full body)
    (hqf : q ++ full = h ++ u0) (tag2 : Str)
    (hh : h = fenceStr ++ tag2 ++ ['\n']) :
    ∃ x y, u0 = x ++ fenceStr ++ y := by
  obtain ⟨tag, hfg, _⟩ := full_as_concat full body hblk
  rcases List.append_eq_append_iff.mp hqf with ⟨w, hw1, hw2⟩ | ⟨w, hw1, hw2⟩
  · -- hw1 : h = q ++ w, hw2 : full = w ++ u0
    rcases List.append_eq_append_iff.mp (hw2.symm.trans hfg) with
      ⟨v, hv1, hv2⟩ | ⟨v, hv1, hv2⟩
    · exact ⟨v, [], by rw [hv2, List.append_nil]⟩
    · cases v with
      | nil =>
        simp only [List.nil_append] at hv2
        exact ⟨[], [], by rw [← hv2]; simp⟩
      | cons v0 v' =>
        exfalso
        have h1 : h.getLast? = some '\n' := by
          rw [hh, show fenceStr ++ tag2 ++ ['\n'] =
                (fenceStr ++ tag2) ++ ['\n'] by simp [List.append_assoc]]
          exact List.getLast?_concat _
        have h2 : h.getLast? = (v0 :: v').getLast? := by
          rw [hw1, hv1,
            show q ++ ((fenceStr ++ tag ++ '\n' :: body) ++ v0 :: v') =
              (q ++ (fenceStr ++ tag ++ '\n' :: body)) ++ v0 :: v' by
              simp [List.append_assoc]]
          exact List.getLast?_append_of_ne_nil _ (by simp)
        obtain ⟨a, ha⟩ : ∃ a, (v0 :: v').getLast? = some a := by
          cases hgl : (v0 :: v').getLast? with
          | none => simp at hgl
          | some a => exact ⟨a, rfl⟩
        have hmem0 : a ∈ v0 :: v' := List.mem_of_mem_getLast? ha
        have hmem : a ∈ fenceStr := by
          rw [hv2]
          rcases List.mem_cons.mp hmem0 with rfl | hm
          · exact List.mem_cons_self _ _
          · exact List.mem_cons_of_mem _ (List.mem_append_left u0 hm)
        have htick : a = '`' := fence_chars a hmem
        rw [h2, ha] at h1
        injection h1 with h1
        rw [htick] at h1
        exact absurd h1 (by decide)
  · -- hw1 : q = h ++ w, hw2 : u0 = w ++ full
    obtain ⟨sfx, hsfx⟩ := hblk.fence_decomp
    exact ⟨w, sfx, by rw [hw2, hsfx]; simp [List.append_assoc]⟩

theorem pre_fail_retained (pre full body rest Y : Str)
    (hblk : IsBlock full body)
    (hP : ∀ p q, pre = p ++ q → q ≠ [] → matchAt (q ++ full ++ rest) = none) :
    ∀ p q, pre = p ++ q → q ≠ [] → matchAt (q ++ (full ++ Y)) = none := by
  intro p q hpq hq
  by_contra hne
  obtain ⟨m3, hm⟩ := Option.ne_none_iff_exists'.mp hne
  obtain ⟨f2, b2, r2⟩ := m3
  obtain ⟨hh, uu, hhdr⟩ := matchAt_some_header _ _ _ _ hm
  rw [show q ++ (full ++ Y) = (q ++ full) ++ Y by
    simp [List.append_assoc]] at hhdr
  have hnl : '\n' ∈ q ++ full := List.mem_append_right q hblk.nl_mem
  obtain ⟨u0, hx, _, hxh⟩ := tryHeader_localized (q ++ full) Y hh uu hnl hhdr
  have happ := tryHeader_append (q ++ full) rest hh u0 hxh
  obtain ⟨tag2, _, hhstruct, _⟩ := tryHeader_sound (q ++ full) hh u0 hxh
  obtain ⟨x, y, hdecomp⟩ := fence_in_u0 q full u0 hh body hblk hx tag2 hhstruct
  have hfence2 : u0 ++ rest = x ++ fenceStr ++ (y ++ rest) := by
    rw [hdecomp]
    simp [List.append_assoc]
  have hcontra := matchAt_ne_none_of_fence ((q ++ full) ++ rest) hh
    (u0 ++ rest) x (y ++ rest) happ hfence2
  have := hP p q hpq hq
  rw [show q ++ full ++ rest = (q ++ full) ++ rest by
    simp [List.append_assoc]] at this
  exact hcontra this

theorem omit_msg_head : OMIT_MSG = '[' :: OMIT_MSG.tail := rfl

theorem omit_msg_no_tick : ∀ c ∈ OMIT_MSG, ¬c = '`' := by decide

theorem pre_fail_replaced (pre full body rest Y : Str)
    (hblk : IsBlock full body)
    (hP : ∀ p q, pre = p ++ q → q ≠ [] → matchAt (q ++ full ++ rest) = none) :
    ∀ p q, pre = p ++ q → q ≠ [] → matchAt (q ++ (OMIT_MSG ++ Y)) = none := by
  intro p q hpq hq
  by_contra hne
  obtain ⟨m3, hm⟩ := Option.ne_none_iff_exists'.mp hne
  obtain ⟨f2, b2, r2⟩ := m3
  obtain ⟨hh, uu, hhdr⟩ := matchAt_some_header _ _ _ _ hm
  rw [show OMIT_MSG ++ Y = '[' :: (OMIT_MSG.tail ++ Y) by
    rw [← List.cons_append, ← omit_msg_head]] at hhdr
  obtain ⟨u0, hx, _, hxh⟩ := tryHeader_blocked q '[' (OMIT_MSG.tail ++ Y) hh uu
    (by decide) (by decide) (by decide) hhdr
  have happ := tryHeader_append q (full ++ rest) hh u0 hxh
  obtain ⟨sfx, hsfx⟩ := hblk.fence_decomp
  have hfence2 : u0 ++ (full ++ rest) = (u0 : Str) ++ fenceStr ++ (sfx ++ rest) := by
    rw [hsfx]
    simp [List.append_assoc]
  have hcontra := matchAt_ne_none_of_fence (q ++ (full ++ rest)) hh
    (u0 ++ (full ++ rest)) u0 (sfx ++ rest) happ hfence2
  have := hP p q hpq hq
  rw [show q ++ full ++ rest = q ++ (full ++ rest) by
    simp [List.append_assoc]] at this
  exact hcontra this

theorem msg_interior_fail (Y : Str) :
    ∀ p q, OMIT_MSG = p ++ q → q ≠ [] → matchAt (q ++ Y) = none := by
  intro p q hpq hq
  cases q with
  | nil => exact absurd rfl hq
  | cons q0 q' =>
    have hq0 : q0 ∈ OMIT_MSG := by
      rw [hpq]
      exact List.mem_append_right p (List.mem_cons_self q0 q')
    have : ¬q0 = '`' := omit_msg_no_tick q0 hq0
    rw [List.cons_append]
    exact matchAt_header_none _ (tryHeader_head_no_tick q0 (q' ++ Y) this)

theorem findMatch_of_matchAt (s f b r : Str) (hne : s ≠ [])
    (hm : matchAt s = some (f, b, r)) : findMatch s = some ([], f, b, r) := by
  cases s with
  | nil => exact absurd rfl hne
  | cons c cs => rw [findMatch.eq_2, hm]

theorem redact_idem_aux : ∀ (n : Nat) (s : Str), s.length ≤ n →
    redact (redact s) = redact s := by
  intro n
  induction n with
  | zero =>
    intro s hs
    have : s = [] := List.length_eq_zero.mp (Nat.le_zero.mp hs)
    subst this
    rw [redact_none [] findMatch.eq_1]
    exact redact_none [] findMatch.eq_1
  | succ n ih =>
    intro s hs
    cases hf : findMatch s with
    | none =>
      rw [redact_none s hf]
      exact redact_none s hf
    | some p4 =>
      obtain ⟨pre, full, body, rest⟩ := p4
      obtain ⟨hseq, hmm2, hP⟩ := findMatch_sound s pre full body rest hf
      obtain ⟨-, hblk⟩ := matchAt_sound _ _ _ _ hmm2
      have hr := findMatch_rest_lt s pre full body rest hf
      have ihrest : redact (redact rest) = redact rest := ih rest (by omega)
      rw [redact_some s pre full body rest hf]
      by_cases hbig : 8 < (splitlinesPy body).length
      · -- oversized block: replaced by the fixed message
        have hrend : renderSeg (Seg.block full body) = OMIT_MSG := by
          simp only [renderSeg]
          rw [if_pos hbig]
        rw [hrend]
        set Y := redact rest with hY
        have hfail : ∀ p q, pre ++ OMIT_MSG = p ++ q → q ≠ [] →
            matchAt (q ++ Y) = none := by
          intro p q hpq hq
          rcases List.append_eq_append_iff.mp hpq with ⟨w, hw1, hw2⟩ | ⟨w, hw1, hw2⟩
          · exact msg_interior_fail Y w q hw2 hq
          · cases w with
            | nil =>
              simp only [List.nil_append] at hw2
              rw [hw2]
              exact msg_interior_fail Y [] OMIT_MSG rfl (by decide)
            | cons w0 w' =>
              rw [hw2, show ((w0 :: w') ++ OMIT_MSG) ++ Y =
                    (w0 :: w') ++ (OMIT_MSG ++ Y) by simp [List.append_assoc]]
              exact pre_fail_replaced pre full body rest Y hblk hP p (w0 :: w')
                hw1 (by simp)
        cases hfY : findMatch Y with
        | none =>
          have h1 : findMatch ((pre ++ OMIT_MSG) ++ Y) = none :=
            findMatch_prefix_none _ _ hfail hfY
          have h2 : redact ((pre ++ OMIT_MSG) ++ Y) = (pre ++ OMIT_MSG) ++ Y :=
            redact_none _ h1
          rw [show pre ++ OMIT_MSG ++ Y = (pre ++ OMIT_MSG) ++ Y from rfl]
          exact h2
        | some p5 =>
          obtain ⟨pw, f2, b2, r2⟩ := p5
          have h1 : findMatch ((pre ++ OMIT_MSG) ++ Y) =
              some ((pre ++ OMIT_MSG) ++ pw, f2, b2, r2) :=
            findMatch_prefix_some _ _ hfail pw f2 b2 r2 hfY
          have h2 := redact_some _ _ _ _ _ h1
          have h3 := redact_some _ _ _ _ _ hfY
          rw [show pre ++ OMIT_MSG ++ Y = (pre ++ OMIT_MSG) ++ Y from rfl, h2]
          conv_rhs => rw [show Y = redact Y from ihrest.symm, h3]
          simp [List.append_assoc]
      · -- small block: kept byte-identical
        have hrend : renderSeg (Seg.block full body) = full := by
          simp only [renderSeg]
          rw [if_neg hbig]
        rw [hrend]
        set Y := redact rest with hY
        obtain ⟨tag, hfull, htag, hclean⟩ := id hblk
        have hmb : matchAt (full ++ Y) = some (full, body, Y) := by
          rw [hfull]
          exact matchAt_build tag body htag hclean Y
        have hfm : findMatch (full ++ Y) = some ([], full, body, Y) := by
          refine findMatch_of_matchAt _ _ _ _ ?_ hmb
          intro hnil
          exact hblk.ne_nil (List.append_eq_nil.mp hnil).1
        have hfail := pre_fail_retained pre full body rest Y hblk hP
        have h1 : findMatch (pre ++ (full ++ Y)) =
            some (pre ++ [], full, body, Y) :=
          findMatch_prefix_some pre (full ++ Y) hfail [] full body Y hfm
        have h2 := redact_some _ _ _ _ _ h1
        rw [show pre ++ full ++ Y = pre ++ (full ++ Y) by
          simp [List.append_assoc], h2, hrend, ihrest]
        simp [List.append_assoc]

theorem redact_idem (s : Str) : redact (redact s) = redact s :=
  redact_idem_aux s.length s le_rfl

/-- C10 counterexample: on a text of twelve `import` lines the first
application appends the truncation notice and the second application,
still counting twelve suspicious lines, appends the notice again, so
`sanitize` is not idempotent. -/
theorem sanitize_not_idempotent :
    sanitize_tutor_output (sanitize_tutor_output
      (some (joinNL (List.replicate 12 (( "import a" ).data))))) ≠
    sanitize_tutor_output
      (some (joinNL (List.replicate 12 (( "import a" ).data)))) := by
  decide

/-- C10 (amended): `sanitize` is idempotent on every input whose
redacted text has fewer than 12 suspicious lines (the truncation
heuristic does not fire); in particular the code-block redaction step
is idempotent on all inputs.  When truncation fires, a second
application can append the truncation notice again. -/
theorem sanitize_idempotent_of_no_truncation (t : Option Str)
    (h : ∀ s, t = some s → suspiciousCount (redact s) < 12) :
    sanitize_tutor_output (sanitize_tutor_output t) =
      sanitize_tutor_output t := by
  cases t with
  | none => rfl
  | some s =>
    have hcount := h s rfl
    by_cases hs : s = []
    · subst hs
      rfl
    · have hcore : sanitizeCore s = redact s := truncStep_skips (redact s) hcount
      rw [show sanitize_tutor_output (some s) = some (sanitizeCore s) by
        simp [sanitize_tutor_output, hs]]
      rw [hcore]
      by_cases hrs : redact s = []
      · simp [sanitize_tutor_output, hrs]
      · rw [show sanitize_tutor_output (some (redact s)) =
              some (sanitizeCore (redact s)) by
          simp [sanitize_tutor_output, hrs]]
        unfold sanitizeCore
        rw [redact_idem s, truncStep_skips (redact s) hcount]

/-- Witness for the amended C10 at a harmless input. -/
theorem sanitize_idempotent_of_no_truncation_witness :
    sanitize_tutor_output (sanitize_tutor_output (some (( "hello" ).data))) =
      sanitize_tutor_output (some (( "hello" ).data)) :=
  sanitize_idempotent_of_no_truncation (some (( "hello" ).data))
    (fun s hs => by
      injection hs with hs
      rw [← hs]
      decide)
